import Mathlib

/-!
Verification of the SumTube request pipeline (src/App.py).

Python strings are modelled as `List Char`.  The string operations the
source uses (`in`, `split`, `rstrip`, `strip`, `join`, truthiness) are
embedded as executable functions with Python semantics.  The two external
collaborators (the transcript-retrieval service and the generative-AI
completion service) are modelled as oracles carried in an environment
record, so every theorem quantifies over their behaviour.
-/

/-- Convert a Lean string literal to the `List Char` model of Python strings. -/
def chars (s : String) : List Char := s.toList

/-- Python substring test `needle in hay` (for the non-empty needles the source uses). -/
def containsSub (needle : List Char) : List Char → Bool
  | [] => needle.isEmpty
  | c :: cs => needle.isPrefixOf (c :: cs) || containsSub needle cs

/-- Fuel-driven worker for Python `str.split(sep)` with `sep = a :: r`:
splits on non-overlapping occurrences of the separator, scanning left to
right.  Structural recursion on the fuel keeps it kernel-reducible. -/
def splitOnFuelL (a : Char) (r : List Char) : Nat → List Char → List (List Char)
  | _, [] => [[]]
  | 0, c :: cs => [c :: cs]
  | Nat.succ f, c :: cs =>
    if (a :: r).isPrefixOf (c :: cs) then
      [] :: splitOnFuelL a r f (List.drop r.length cs)
    else
      match splitOnFuelL a r f cs with
      | [] => [[c]]
      | h :: t => (c :: h) :: t

/-- Python `s.split(sep)` for a non-empty separator `a :: r`. -/
def splitOnL (a : Char) (r : List Char) (s : List Char) : List (List Char) :=
  splitOnFuelL a r s.length s

/-- Characters of `s` before the first occurrence of the separator `a :: r`
(all of `s` when the separator does not occur): the first element of
Python `s.split(sep)`. -/
def takeUntilSep (a : Char) (r : List Char) : List Char → List Char
  | [] => []
  | c :: cs => if (a :: r).isPrefixOf (c :: cs) then [] else c :: takeUntilSep a r cs

/-- Python `s.rstrip(x)` for a one-character strip set. -/
def rstripChar (x : Char) (s : List Char) : List Char :=
  (s.reverse.dropWhile (fun c => c == x)).reverse

/-- The ASCII whitespace characters stripped by Python `str.strip()`. -/
def isPySpace (c : Char) : Bool :=
  c == ' ' || c == '\t' || c == '\n' || c == '\x0d' || c == '\x0b' || c == '\x0c'

/-- Python `s.strip()`: remove leading and trailing whitespace. -/
def pyStrip (s : List Char) : List Char :=
  ((s.dropWhile isPySpace).reverse.dropWhile isPySpace).reverse

/-- Python `sep.join(parts)`. -/
def joinWith (sep : List Char) : List (List Char) → List Char
  | [] => []
  | [x] => x
  | x :: y :: ys => x ++ sep ++ joinWith sep (y :: ys)

/-- No occurrence of the separator `a :: r` begins inside the first
`q.length` positions of `q ++ w`. -/
def noEarlyOcc (a : Char) (r : List Char) (q w : List Char) : Prop :=
  ∀ i, i < q.length → (a :: r).isPrefixOf ((q ++ w).drop i) = false

/-- The bounded quantifier in `noEarlyOcc` is decidable, so the predicate
can be checked on concrete inputs. -/
instance noEarlyOccDecidable (a : Char) (r q w : List Char) :
    Decidable (noEarlyOcc a r q w) := by
  unfold noEarlyOcc
  infer_instance

/-- Truthiness of a Python `Optional[str]`: `None` and `""` are falsy. -/
def pyTruthyStr : Option (List Char) → Bool
  | none => false
  | some s => !s.isEmpty

/-- Embeds `extract_youtube_id` (src/App.py lines 16-25).
The first branch requires the marker `youtube.com/watch?v=` and evaluates
`url.split("v=")[1].split("&")[0]`; the index `1` exists there because the
marker contains `v=`, so `getD 1 []` is exact.  The second branch requires
`youtu.be/` and evaluates `url.rstrip('/').split("/")[-1]`; `split` never
returns an empty list, so `getLastD []` is exact.  Otherwise the function
raises `ValueError("Invalid YouTube URL")`, modelled as `Except.error`. -/
def extract_youtube_id (url : List Char) : Except (List Char) (List Char) :=
  if containsSub (chars ("youtube.com/watch?v=")) url then
    Except.ok ((splitOnL '&' [] ((splitOnL 'v' ['='] url).getD 1 [])).headD [])
  else if containsSub (chars ("youtu.be/")) url then
    Except.ok ((splitOnL '/' [] (rstripChar '/' url)).getLastD [])
  else
    Except.error (chars ("Invalid YouTube URL"))

/-- One raw caption entry as returned by `fetch(video_id).to_raw_data()`:
a dict whose `"text"` field is the fragment the code reads.  The timing
metadata (`start`, `duration` floats) is never read downstream and is
elided from the model. -/
structure TranscriptEntry where
  text : List Char
deriving DecidableEq

/-- Embeds `fetch_youtube_transcript` (src/App.py lines 27-37).  The
argument is the outcome of the external service call
`YouTubeTranscriptApi().fetch(video_id).to_raw_data()`: either a raised
exception of arbitrary type `ε` or a list of entries.  The `try/except
Exception` collapses every raised error to `None`; otherwise the code
returns `" ".join(entry["text"] ...)` unless its `strip()` is empty. -/
def fetch_youtube_transcript {ε : Type} (svcResult : Except ε (List TranscriptEntry)) :
    Option (List Char) :=
  match svcResult with
  | Except.error _ => none
  | Except.ok transcript =>
    let all_text := joinWith (chars (" ")) (transcript.map TranscriptEntry.text)
    if (pyStrip all_text).isEmpty then none else some all_text

/-- One part of a Gemini response content (`parts[0].text` is read). -/
structure GemPart where
  text : List Char
deriving DecidableEq

/-- Content of a Gemini response candidate. -/
structure GemContent where
  parts : List GemPart
deriving DecidableEq

/-- One candidate of a Gemini response (`candidates[0]` is read). -/
structure GemCandidate where
  content : GemContent
deriving DecidableEq

/-- The response object returned by `client.models.generate_content`. -/
structure GenResponse where
  candidates : List GemCandidate
deriving DecidableEq

/-- A request content object: `types.Content(role=..., parts=...)`. -/
structure ReqContent where
  role : List Char
  parts : List GemPart
deriving DecidableEq

/-- Python exceptions that can escape `summarize_transcript_with_gemini`:
the `EnvironmentError` raised for a missing credential, any error `υ`
raised by the completion call, and the `IndexError` from `[0]` indexing
into empty `candidates`/`parts`. -/
inductive PyErr (υ : Type) where
  | environmentError (msg : List Char)
  | completionError (e : υ)
  | indexError
deriving DecidableEq

/-- The ambient process state and the two external collaborators:
the transcript service keyed by video id (raising `ε` on failure), the
`GEMINI_API_KEY` environment variable (`none` when unset), and the
completion call `generate model contents` (raising `υ` on failure). -/
structure AppEnv (ε υ : Type) where
  transcriptSvc : List Char → Except ε (List TranscriptEntry)
  geminiApiKey : Option (List Char)
  generate : List Char → List ReqContent → Except υ GenResponse

/-- The message of the `EnvironmentError` raised at src/App.py line 45. -/
def missingKeyMsg : List Char :=
  chars ("GEMINI_API_KEY environment variable not set. Please set it in your .env file or system environment.")

/-- The f-string prompt template of src/App.py lines 49-56 with the
transcript interpolated (`\x7b`/`\x7d` denote the literal braces that the
Python source writes as `\x7b\x7b`/`\x7d\x7d`). -/
def geminiPrompt (transcript : List Char) : List Char :=
  chars ("Based on the following transcription please give me the summary in a json format like this:\n\x7b\n   \"Topic name\" : \"name of the topic\",\n   \"Topic summary\" : \"Summary of the topic\"\n\x7d\nTranscription:\n")
    ++ transcript ++ chars ("\n")

/-- Embeds `summarize_transcript_with_gemini` (src/App.py lines 39-64).
Python `if not api_key` is true for an unset variable and for the empty
string, hence the `isEmpty` test.  The client construction and network
call are modelled by `env.generate` applied to the model name and the
single user-role content holding the prompt;
`response.candidates[0].content.parts[0].text` raises `IndexError` on an
empty list, modelled by the `[]` branches. -/
def summarize_transcript_with_gemini {ε υ : Type} (env : AppEnv ε υ)
    (transcript : List Char) : Except (PyErr υ) (List Char) :=
  match env.geminiApiKey with
  | none => Except.error (PyErr.environmentError missingKeyMsg)
  | some api_key =>
    if api_key.isEmpty then Except.error (PyErr.environmentError missingKeyMsg)
    else
      match env.generate (chars ("gemini-2.5-pro"))
          [ReqContent.mk (chars ("user")) [GemPart.mk (geminiPrompt transcript)]] with
      | Except.error e => Except.error (PyErr.completionError e)
      | Except.ok response =>
        match response.candidates with
        | [] => Except.error PyErr.indexError
        | cand :: _ =>
          match cand.content.parts with
          | [] => Except.error PyErr.indexError
          | p :: _ => Except.ok p.text

/-- Embeds the handler `get_summary` (src/App.py lines 68-80).  The
`try/except ValueError` around `extract_youtube_id` maps its only raise to
the invalid-URL payload.  Python `if transcript:` is false for `None` and
for the empty string, hence the two branches mapping to the not-found
payload.  Exceptions from the summarizer are not caught and surface as
`Except.error`.  The returned dict is modelled as a key-value list. -/
def get_summary {ε υ : Type} (env : AppEnv ε υ) (url : List Char) :
    Except (PyErr υ) (List (List Char × List Char)) :=
  match extract_youtube_id url with
  | Except.error _ => Except.ok [(chars ("error"), chars ("Invalid YouTube URL."))]
  | Except.ok video_id =>
    match fetch_youtube_transcript (env.transcriptSvc video_id) with
    | none =>
      Except.ok [(chars ("error"), chars ("Transcript not found or not available for this video."))]
    | some t =>
      if t.isEmpty then
        Except.ok [(chars ("error"), chars ("Transcript not found or not available for this video."))]
      else
        match summarize_transcript_with_gemini env t with
        | Except.error e => Except.error e
        | Except.ok summary => Except.ok [(chars ("summary"), summary)]

/-- The completion text used by the end-to-end success scenario:
the JSON object with the two fields, returned verbatim by the service. -/
def respTextC4 : List Char :=
  chars ("\x7b\"Topic name\":\"X\",\"Topic summary\":\"Y\"\x7d")

/-- A concrete environment for the end-to-end success scenario: the
transcript service returns the two entries `Hello` and `world`, the API
key is set, and the completion service returns `respTextC4` as the only
part of the only candidate. -/
def envC4 : AppEnv Unit Unit :=
  AppEnv.mk
    (fun _ => Except.ok [TranscriptEntry.mk (chars ("Hello")), TranscriptEntry.mk (chars ("world"))])
    (some (chars ("k")))
    (fun _ _ => Except.ok (GenResponse.mk [GemCandidate.mk (GemContent.mk [GemPart.mk respTextC4])]))

/-- A concrete environment whose `GEMINI_API_KEY` is unset: the transcript
service still succeeds, the completion service always raises. -/
def envNoKey : AppEnv Unit Unit :=
  AppEnv.mk
    (fun _ => Except.ok [TranscriptEntry.mk (chars ("Hello")), TranscriptEntry.mk (chars ("world"))])
    none
    (fun _ _ => Except.error ())

/-- Decidable equality for `Except`, used to evaluate the embedded
functions on concrete inputs. -/
instance instDecEqExcept {α β : Type} [DecidableEq α] [DecidableEq β] :
    DecidableEq (Except α β) := fun x y =>
  match x, y with
  | Except.error a, Except.error b =>
    if h : a = b then isTrue (by rw [h]) else isFalse (fun hc => by injection hc; contradiction)
  | Except.error _, Except.ok _ => isFalse (fun hc => Except.noConfusion hc)
  | Except.ok _, Except.error _ => isFalse (fun hc => Except.noConfusion hc)
  | Except.ok a, Except.ok b =>
    if h : a = b then isTrue (by rw [h]) else isFalse (fun hc => by injection hc; contradiction)

/-! ### Helper lemmas about the string operations -/

theorem isPrefixOf_append_self : ∀ (l t : List Char), l.isPrefixOf (l ++ t) = true
  | [], t => by cases t <;> rfl
  | c :: l, t => by simp [List.isPrefixOf, isPrefixOf_append_self l t]

theorem isPrefixOf_ex_append (l s : List Char) (h : l.isPrefixOf s = true) :
    ∃ t, s = l ++ t := by
  have h2 : l <+: s := by simpa using h
  obtain ⟨t, ht⟩ := h2
  exact ⟨t, ht.symm⟩

theorem containsSub_nil_needle : ∀ s, containsSub [] s = true := by
  intro s; cases s <;> simp [containsSub, List.isPrefixOf]

theorem containsSub_append_self : ∀ (p n t : List Char), containsSub n (p ++ n ++ t) = true := by
  intro p n t
  induction p with
  | nil =>
    cases n with
    | nil => simpa using containsSub_nil_needle t
    | cons c n' =>
      show containsSub (c :: n') (c :: (n' ++ t)) = true
      simp only [containsSub, Bool.or_eq_true]
      exact Or.inl (isPrefixOf_append_self (c :: n') t)
  | cons d p ih =>
    show containsSub n (d :: (p ++ n ++ t)) = true
    simp only [containsSub, Bool.or_eq_true]
    exact Or.inr ih

theorem containsSub_drop_needle (hay : List Char) :
    ∀ (p n : List Char), containsSub (p ++ n) hay = true → containsSub n hay = true := by
  induction hay with
  | nil =>
    intro p n h
    cases p <;> cases n <;> simp_all [containsSub, List.isEmpty]
  | cons c cs ih =>
    intro p n h
    simp only [containsSub, Bool.or_eq_true] at h
    cases h with
    | inl hp =>
      obtain ⟨t, ht⟩ := isPrefixOf_ex_append (p ++ n) (c :: cs) hp
      rw [ht]
      exact containsSub_append_self p n t
    | inr hc =>
      simp only [containsSub, Bool.or_eq_true]
      exact Or.inr (ih p n hc)

theorem splitOnFuelL_ne_nil (a : Char) (r : List Char) (f : Nat) (s : List Char) :
    splitOnFuelL a r f s ≠ [] := by
  cases s with
  | nil => cases f <;> simp [splitOnFuelL]
  | cons c cs =>
    cases f with
    | zero => simp [splitOnFuelL]
    | succ f =>
      simp only [splitOnFuelL]
      cases hp : (a :: r).isPrefixOf (c :: cs) with
      | true => simp [hp]
      | false =>
        simp only [hp, Bool.false_eq_true, if_false]
        cases hm : splitOnFuelL a r f cs <;> simp

theorem splitOnFuelL_fuel_eq (a : Char) (r : List Char) :
    ∀ (f₁ f₂ : Nat) (s : List Char), s.length ≤ f₁ → s.length ≤ f₂ →
      splitOnFuelL a r f₁ s = splitOnFuelL a r f₂ s := by
  intro f₁
  induction f₁ with
  | zero =>
    intro f₂ s h1 _
    have hs : s = [] := List.length_eq_zero.mp (Nat.le_zero.mp h1)
    subst hs
    cases f₂ <;> rfl
  | succ f ih =>
    intro f₂ s h1 h2
    cases s with
    | nil => cases f₂ <;> rfl
    | cons c cs =>
      cases f₂ with
      | zero => simp at h2
      | succ g =>
        simp only [List.length_cons] at h1 h2
        simp only [splitOnFuelL]
        cases hp : (a :: r).isPrefixOf (c :: cs) with
        | true =>
          simp only [hp, if_true]
          have hd : (List.drop r.length cs).length ≤ f := by
            rw [List.length_drop]; omega
          have hd2 : (List.drop r.length cs).length ≤ g := by
            rw [List.length_drop]; omega
          rw [ih g (List.drop r.length cs) hd hd2]
        | false =>
          simp only [hp, Bool.false_eq_true, if_false]
          rw [ih g cs (by omega) (by omega)]

theorem splitOnL_ne_nil (a : Char) (r : List Char) (s : List Char) : splitOnL a r s ≠ [] :=
  splitOnFuelL_ne_nil a r s.length s

theorem splitOnL_cons_pos (a : Char) (r : List Char) (c : Char) (cs : List Char)
    (hp : (a :: r).isPrefixOf (c :: cs) = true) :
    splitOnL a r (c :: cs) = [] :: splitOnL a r (List.drop r.length cs) := by
  show splitOnFuelL a r (cs.length + 1) (c :: cs) = _
  simp only [splitOnFuelL, hp, if_true]
  rw [splitOnFuelL_fuel_eq a r cs.length (List.drop r.length cs).length
    (List.drop r.length cs) (by rw [List.length_drop]; omega) (Nat.le_refl _)]
  rfl

theorem splitOnL_cons_neg (a : Char) (r : List Char) (c : Char) (cs : List Char)
    (hp : (a :: r).isPrefixOf (c :: cs) = false) :
    splitOnL a r (c :: cs) =
      (c :: (splitOnL a r cs).headD []) :: (splitOnL a r cs).tail := by
  show splitOnFuelL a r (cs.length + 1) (c :: cs) = _
  simp only [splitOnFuelL, hp, Bool.false_eq_true, if_false]
  cases hm : splitOnL a r cs with
  | nil => exact absurd hm (splitOnL_ne_nil a r cs)
  | cons h t =>
    rw [show splitOnFuelL a r cs.length cs = splitOnL a r cs from rfl, hm]
    rfl

theorem splitOnL_no_occ (a : Char) (r : List Char) :
    ∀ s, containsSub (a :: r) s = false → splitOnL a r s = [s] := by
  intro s
  induction s with
  | nil => intro _; rfl
  | cons c cs ih =>
    intro h
    simp only [containsSub, Bool.or_eq_false_iff] at h
    rw [splitOnL_cons_neg a r c cs h.1, ih h.2]
    rfl

theorem splitOnL_first (a : Char) (r : List Char) :
    ∀ (q t : List Char), noEarlyOcc a r q ((a :: r) ++ t) →
      splitOnL a r (q ++ (a :: r) ++ t) = q :: splitOnL a r t := by
  intro q
  induction q with
  | nil =>
    intro t _
    rw [List.nil_append]
    have hp : (a :: r).isPrefixOf (a :: (r ++ t)) = true := isPrefixOf_append_self (a :: r) t
    rw [show (a :: r) ++ t = a :: (r ++ t) from rfl, splitOnL_cons_pos a r a (r ++ t) hp,
      List.drop_left]
  | cons c q ih =>
    intro t h
    have h0 : (a :: r).isPrefixOf (c :: (q ++ (a :: r) ++ t)) = false := by
      have := h 0 (by simp)
      simpa using this
    rw [show (c :: q) ++ (a :: r) ++ t = c :: (q ++ (a :: r) ++ t) from rfl,
      splitOnL_cons_neg a r c _ h0]
    have hih : splitOnL a r (q ++ (a :: r) ++ t) = q :: splitOnL a r t := by
      apply ih
      intro i hi
      have := h (i + 1) (by simp; omega)
      simpa using this
    rw [hih]
    rfl

theorem splitOnL_headD (a : Char) (r : List Char) :
    ∀ s, (splitOnL a r s).headD [] = takeUntilSep a r s := by
  intro s
  induction s with
  | nil => rfl
  | cons c cs ih =>
    cases hp : (a :: r).isPrefixOf (c :: cs) with
    | true =>
      rw [splitOnL_cons_pos a r c cs hp]
      show ([] : List Char) = takeUntilSep a r (c :: cs)
      simp only [takeUntilSep, hp, if_true]
    | false =>
      rw [splitOnL_cons_neg a r c cs hp]
      show c :: (splitOnL a r cs).headD [] = takeUntilSep a r (c :: cs)
      simp only [takeUntilSep, hp, Bool.false_eq_true, if_false]
      rw [ih]

theorem takeUntilSep_append (a : Char) (r : List Char) :
    ∀ (q t : List Char), noEarlyOcc a r q t →
      takeUntilSep a r (q ++ t) = q ++ takeUntilSep a r t := by
  intro q
  induction q with
  | nil => intro t _; rfl
  | cons c q ih =>
    intro t h
    have h0 : (a :: r).isPrefixOf (c :: (q ++ t)) = false := by
      have := h 0 (by simp)
      simpa using this
    rw [show (c :: q) ++ t = c :: (q ++ t) from rfl]
    simp only [takeUntilSep, h0, Bool.false_eq_true, if_false]
    rw [ih t (by intro i hi; have := h (i + 1) (by simp; omega); simpa using this)]
    rfl

theorem takeUntilSep_append_single (a : Char) :
    ∀ (q t : List Char), a ∉ q →
      takeUntilSep a [] (q ++ t) = q ++ takeUntilSep a [] t := by
  intro q
  induction q with
  | nil => intro t _; rfl
  | cons c q ih =>
    intro t h
    simp only [List.mem_cons, not_or] at h
    have hac : (a == c) = false := by simpa using h.1
    rw [show (c :: q) ++ t = c :: (q ++ t) from rfl]
    simp only [takeUntilSep, List.isPrefixOf, hac, Bool.false_and, Bool.false_eq_true, if_false]
    rw [ih t h.2]
    rfl

theorem mem_of_containsSub_single (a : Char) : ∀ t, containsSub [a] t = true → a ∈ t := by
  intro t
  induction t with
  | nil => intro h; simp [containsSub, List.isEmpty] at h
  | cons d ds ih =>
    intro h
    simp only [containsSub, Bool.or_eq_true] at h
    cases h with
    | inl hd =>
      have had : a = d := by simpa [List.isPrefixOf] using hd
      simp [had]
    | inr hd => exact List.mem_cons_of_mem d (ih hd)

theorem splitOnL_last (a : Char) :
    ∀ (p t : List Char), a ∉ t →
      2 ≤ (splitOnL a [] (p ++ a :: t)).length ∧
        (splitOnL a [] (p ++ a :: t)).getLastD [] = t := by
  intro p
  induction p with
  | nil =>
    intro t h
    have hp : ([a]).isPrefixOf (a :: t) = true := by simp [List.isPrefixOf]
    rw [List.nil_append, splitOnL_cons_pos a [] a t hp]
    have hno : containsSub [a] t = false := by
      cases hcs : containsSub [a] t with
      | false => rfl
      | true => exact absurd (mem_of_containsSub_single a t hcs) h
    rw [show List.drop ([] : List Char).length t = t from rfl, splitOnL_no_occ a [] t hno]
    exact ⟨by simp, rfl⟩
  | cons c p ih =>
    intro t h
    obtain ⟨hl, hg⟩ := ih t h
    cases hac : (a == c) with
    | true =>
      have hp : ([a]).isPrefixOf (c :: (p ++ a :: t)) = true := by
        simp [List.isPrefixOf, hac]
      rw [show (c :: p) ++ a :: t = c :: (p ++ a :: t) from rfl,
        splitOnL_cons_pos a [] c _ hp,
        show List.drop ([] : List Char).length (p ++ a :: t) = p ++ a :: t from rfl]
      refine ⟨by simp; omega, ?_⟩
      rw [List.getLastD_cons]
      cases hm : splitOnL a [] (p ++ a :: t) with
      | nil => exact absurd hm (splitOnL_ne_nil a [] _)
      | cons x xs =>
        rw [hm] at hg
        rw [List.getLastD_cons] at hg ⊢
        exact hg
    | false =>
      have hp : ([a]).isPrefixOf (c :: (p ++ a :: t)) = false := by
        simp [List.isPrefixOf, hac]
      rw [show (c :: p) ++ a :: t = c :: (p ++ a :: t) from rfl,
        splitOnL_cons_neg a [] c _ hp]
      cases hm : splitOnL a [] (p ++ a :: t) with
      | nil => exact absurd hm (splitOnL_ne_nil a [] _)
      | cons x xs =>
        rw [hm] at hl hg
        cases xs with
        | nil => simp at hl
        | cons y ys =>
          refine ⟨by simp, ?_⟩
          rw [List.getLastD_cons] at hg
          simp only [List.headD, List.tail]
          rw [List.getLastD_cons, List.getLastD_cons]
          rw [List.getLastD_cons] at hg
          exact hg

theorem dropWhileBeq_replicate (x : Char) (k : Nat) (u : List Char) :
    List.dropWhile (fun c => c == x) (List.replicate k x ++ u) =
      List.dropWhile (fun c => c == x) u := by
  induction k with
  | zero => rfl
  | succ k ih => simp [List.replicate, List.dropWhile_cons, ih]

theorem rstripChar_append_replicate (x : Char) (w : List Char) (k : Nat) :
    rstripChar x (w ++ List.replicate k x) = rstripChar x w := by
  simp [rstripChar, List.reverse_append, List.reverse_replicate, dropWhileBeq_replicate]

theorem rstripChar_append_last (x d : Char) (w : List Char) (h : (d == x) = false) :
    rstripChar x (w ++ [d]) = w ++ [d] := by
  simp [rstripChar, List.reverse_append, List.dropWhile_cons, h]

theorem joinWith_eq_foldr (sep : List Char) :
    ∀ (x : List Char) (xs : List (List Char)),
      joinWith sep (x :: xs) = x ++ xs.foldr (fun y acc => sep ++ y ++ acc) [] := by
  intro x xs
  induction xs generalizing x with
  | nil => simp [joinWith]
  | cons y ys ih =>
    rw [show joinWith sep (x :: y :: ys) = x ++ sep ++ joinWith sep (y :: ys) from rfl, ih y]
    simp [List.append_assoc]

theorem isEmpty_false_of_ne_nil {l : List Char} (h : l ≠ []) : l.isEmpty = false := by
  cases l with
  | nil => exact absurd rfl h
  | cons _ _ => rfl

theorem fetch_some_strip {ε : Type} (svc : Except ε (List TranscriptEntry)) {t : List Char}
    (h : fetch_youtube_transcript svc = some t) : pyStrip t ≠ [] := by
  cases svc with
  | error e => exact absurd h (by simp [fetch_youtube_transcript])
  | ok es =>
    have h2 : (if (pyStrip (joinWith (chars (" ")) (es.map TranscriptEntry.text))).isEmpty
        then (none : Option (List Char))
        else some (joinWith (chars (" ")) (es.map TranscriptEntry.text))) = some t := h
    cases hg : (pyStrip (joinWith (chars (" ")) (es.map TranscriptEntry.text))).isEmpty with
    | true => rw [hg] at h2; simp at h2
    | false =>
      rw [hg] at h2
      simp only [Bool.false_eq_true, if_false, Option.some.injEq] at h2
      intro hc
      rw [h2, hc] at hg
      simp [List.isEmpty] at hg

/-! ### Claim theorems -/

/-- C1 counterexample: the URL `watch?v=abc` contains the marker
`watch?v=` claimed sufficient, yet `extract_youtube_id` raises
`ValueError` instead of returning `abc`, because the code requires the
longer marker `youtube.com/watch?v=`. -/
theorem c1_claim_counterexample :
    containsSub (chars ("watch?v=")) (chars ("watch?v=abc")) = true ∧
    extract_youtube_id (chars ("watch?v=abc")) = Except.error (chars ("Invalid YouTube URL")) ∧
    extract_youtube_id (chars ("watch?v=abc")) ≠ Except.ok (chars ("abc")) :=
  ⟨by decide, by decide, by decide⟩

/-- C1 (amended): for every URL of the form
`P ++ "youtube.com/watch?v=" ++ ID ++ S` in which no occurrence of `v=`
starts before the marker's own `v=`, `ID` contains no occurrence of `v=`
and no `&`, and `S` is empty or starts with `&`, the parser returns
exactly `ID`.  The marker the code requires is `youtube.com/watch?v=`,
not bare `watch?v=`, and the returned segment is delimited by the next
`v=` as well as by the next `&`. -/
theorem c1_extract_watch_returns_id (p id s : List Char)
    (h1 : noEarlyOcc 'v' ['='] (p ++ chars ("youtube.com/watch?")) ('v' :: '=' :: (id ++ s)))
    (h2 : noEarlyOcc 'v' ['='] id s)
    (h3 : '&' ∉ id)
    (h4 : s = [] ∨ ∃ s2, s = '&' :: s2) :
    extract_youtube_id (p ++ chars ("youtube.com/watch?v=") ++ id ++ s) = Except.ok id := by
  have hm : chars ("youtube.com/watch?v=") = chars ("youtube.com/watch?") ++ ('v' :: ['='] : List Char) := by
    decide
  have hurl : p ++ chars ("youtube.com/watch?v=") ++ id ++ s
      = (p ++ chars ("youtube.com/watch?")) ++ ('v' :: ['=']) ++ (id ++ s) := by
    rw [hm]; simp [List.append_assoc]
  have hcont : containsSub (chars ("youtube.com/watch?v="))
      (p ++ chars ("youtube.com/watch?v=") ++ id ++ s) = true := by
    rw [show p ++ chars ("youtube.com/watch?v=") ++ id ++ s
        = p ++ chars ("youtube.com/watch?v=") ++ (id ++ s) by simp [List.append_assoc]]
    exact containsSub_append_self p (chars ("youtube.com/watch?v=")) (id ++ s)
  unfold extract_youtube_id
  rw [if_pos hcont]
  have hsplit : splitOnL 'v' ['='] (p ++ chars ("youtube.com/watch?v=") ++ id ++ s)
      = (p ++ chars ("youtube.com/watch?")) :: splitOnL 'v' ['='] (id ++ s) := by
    rw [hurl]
    exact splitOnL_first 'v' ['='] (p ++ chars ("youtube.com/watch?")) (id ++ s) h1
  rw [hsplit]
  have hgd : ((p ++ chars ("youtube.com/watch?")) :: splitOnL 'v' ['='] (id ++ s)).getD 1 []
      = (splitOnL 'v' ['='] (id ++ s)).headD [] := by
    cases hL : splitOnL 'v' ['='] (id ++ s) with
    | nil => exact absurd hL (splitOnL_ne_nil 'v' ['='] (id ++ s))
    | cons x xs => rfl
  rw [hgd, splitOnL_headD 'v' ['='] (id ++ s), takeUntilSep_append 'v' ['='] id s h2,
    splitOnL_headD '&' [] (id ++ takeUntilSep 'v' ['='] s),
    takeUntilSep_append_single '&' id (takeUntilSep 'v' ['='] s) h3]
  cases h4 with
  | inl h4 =>
    subst h4
    simp [takeUntilSep]
  | inr h4 =>
    obtain ⟨s2, rfl⟩ := h4
    have hb : ('v' == '&') = false := rfl
    have hx : takeUntilSep 'v' ['='] ('&' :: s2) = '&' :: takeUntilSep 'v' ['='] s2 := by
      simp [takeUntilSep, List.isPrefixOf, hb]
    rw [hx]
    have hpx : (['&'] : List Char).isPrefixOf ('&' :: takeUntilSep 'v' ['='] s2) = true :=
      isPrefixOf_append_self ['&'] (takeUntilSep 'v' ['='] s2)
    have hy2 : takeUntilSep '&' [] ('&' :: takeUntilSep 'v' ['='] s2) = [] := by
      simp only [takeUntilSep, hpx, if_true]
    rw [hy2]
    simp

/-- C1 witness: the amended theorem applied to the concrete URL
`https://www.youtube.com/watch?v=abc123&t=9`. -/
theorem c1_witness :
    extract_youtube_id (chars ("https://www.") ++ chars ("youtube.com/watch?v=")
      ++ chars ("abc123") ++ chars ("&t=9")) = Except.ok (chars ("abc123")) :=
  c1_extract_watch_returns_id (chars ("https://www.")) (chars ("abc123")) (chars ("&t=9"))
    (by decide) (by decide) (by decide) (Or.inr ⟨chars ("t=9"), by decide⟩)

/-- C2 counterexample: for `https://youtu.be/abc&x` the code returns the
last path segment `abc&x` unchanged; the trailing `&...` the claim says is
stripped is not stripped in the `youtu.be/` branch. -/
theorem c2_claim_counterexample :
    extract_youtube_id (chars ("https://youtu.be/abc&x")) = Except.ok (chars ("abc&x")) ∧
    chars ("abc&x") ≠ chars ("abc") :=
  ⟨by decide, by decide⟩

/-- C2 (amended): for every URL of the form
`P ++ "youtu.be/" ++ ID ++ "/"*k` that does not contain
`youtube.com/watch?v=`, where `ID` is non-empty and contains no `/`, the
parser returns exactly `ID` (trailing slashes are stripped; a trailing
`&...` is NOT stripped and would be part of the result). -/
theorem c2_extract_youtube_short (p id : List Char) (k : Nat)
    (h0 : containsSub (chars ("youtube.com/watch?v="))
      (p ++ chars ("youtu.be/") ++ id ++ List.replicate k '/') = false)
    (h1 : '/' ∉ id) (h2 : id ≠ []) :
    extract_youtube_id (p ++ chars ("youtu.be/") ++ id ++ List.replicate k '/') =
      Except.ok id := by
  have hcont : containsSub (chars ("youtu.be/"))
      (p ++ chars ("youtu.be/") ++ id ++ List.replicate k '/') = true := by
    rw [show p ++ chars ("youtu.be/") ++ id ++ List.replicate k '/'
        = p ++ chars ("youtu.be/") ++ (id ++ List.replicate k '/') by simp [List.append_assoc]]
    exact containsSub_append_self p (chars ("youtu.be/")) (id ++ List.replicate k '/')
  unfold extract_youtube_id
  rw [if_neg (by rw [h0]; exact Bool.false_ne_true), if_pos hcont]
  rcases List.eq_nil_or_concat id with hnil | ⟨u, d, hud⟩
  · exact absurd hnil h2
  · rw [List.concat_eq_append] at hud
    have hd : d ∈ id := by rw [hud]; simp
    have hdn : (d == '/') = false := by
      have hne : d ≠ '/' := fun he => h1 (he ▸ hd)
      simpa using hne
    have hr : rstripChar '/' (p ++ chars ("youtu.be/") ++ id ++ List.replicate k '/')
        = p ++ chars ("youtu.be/") ++ id := by
      rw [rstripChar_append_replicate '/' (p ++ chars ("youtu.be/") ++ id) k]
      rw [hud, show p ++ chars ("youtu.be/") ++ (u ++ [d])
          = (p ++ chars ("youtu.be/") ++ u) ++ [d] by simp [List.append_assoc]]
      exact rstripChar_append_last '/' d (p ++ chars ("youtu.be/") ++ u) hdn
    rw [hr]
    rw [show p ++ chars ("youtu.be/") ++ id = (p ++ chars ("youtu.be")) ++ '/' :: id by
      rw [show chars ("youtu.be/") = chars ("youtu.be") ++ ['/'] by decide]
      simp [List.append_assoc]]
    rw [(splitOnL_last '/' (p ++ chars ("youtu.be")) id h1).2]

/-- C2 witness: the amended theorem applied to the concrete URL
`https://youtu.be/abc123/`. -/
theorem c2_witness :
    extract_youtube_id (chars ("https://") ++ chars ("youtu.be/")
      ++ chars ("abc123") ++ List.replicate 1 '/') = Except.ok (chars ("abc123")) :=
  c2_extract_youtube_short (chars ("https://")) (chars ("abc123")) 1
    (by decide) (by decide) (by decide)

/-- C3: a URL containing neither `watch?v=` nor `youtu.be/` makes the
parser raise `ValueError("Invalid YouTube URL")` and makes the handler
answer the invalid-URL payload.  The theorem holds for every environment,
so neither the transcript service nor the completion service is consulted. -/
theorem c3_invalid_url (ε υ : Type) (env : AppEnv ε υ) (url : List Char)
    (hw : containsSub (chars ("watch?v=")) url = false)
    (hy : containsSub (chars ("youtu.be/")) url = false) :
    extract_youtube_id url = Except.error (chars ("Invalid YouTube URL")) ∧
    get_summary env url = Except.ok [(chars ("error"), chars ("Invalid YouTube URL."))] := by
  have hw2 : containsSub (chars ("youtube.com/watch?v=")) url = false := by
    cases hcs : containsSub (chars ("youtube.com/watch?v=")) url with
    | false => rfl
    | true =>
      have hlong : containsSub (chars ("youtube.com/") ++ chars ("watch?v=")) url = true := by
        rw [show chars ("youtube.com/") ++ chars ("watch?v=")
            = chars ("youtube.com/watch?v=") from by decide]
        exact hcs
      have hshort := containsSub_drop_needle url (chars ("youtube.com/")) (chars ("watch?v=")) hlong
      rw [hshort] at hw
      exact absurd hw (by simp)
  have hex : extract_youtube_id url = Except.error (chars ("Invalid YouTube URL")) := by
    unfold extract_youtube_id
    rw [if_neg (by rw [hw2]; exact Bool.false_ne_true),
      if_neg (by rw [hy]; exact Bool.false_ne_true)]
  exact ⟨hex, by simp [get_summary, hex]⟩

/-- C3 witness: the theorem applied to `not-a-youtube-url` in a concrete
environment. -/
theorem c3_witness :
    extract_youtube_id (chars ("not-a-youtube-url")) = Except.error (chars ("Invalid YouTube URL")) ∧
    get_summary envNoKey (chars ("not-a-youtube-url")) =
      Except.ok [(chars ("error"), chars ("Invalid YouTube URL."))] :=
  c3_invalid_url Unit Unit envNoKey (chars ("not-a-youtube-url")) (by decide) (by decide)

/-- C4: end-to-end success path.  For the URL `https://youtu.be/abc123`,
a transcript service returning the entries `Hello` and `world` and a
completion service returning the two-field JSON text, the handler answers
exactly the summary payload holding that text verbatim. -/
theorem c4_end_to_end_success :
    get_summary envC4 (chars ("https://youtu.be/abc123")) =
      Except.ok [(chars ("summary"), respTextC4)] := by
  decide

/-- C5: every failure of the transcript service, the empty entry list,
and any entry list whose space-joined text strips to empty all collapse
to the single `None` outcome of `fetch_youtube_transcript`. -/
theorem c5_fetch_failure_collapse (ε : Type) (svc : Except ε (List TranscriptEntry)) :
    ((∃ e, svc = Except.error e) → fetch_youtube_transcript svc = none) ∧
    (svc = Except.ok [] → fetch_youtube_transcript svc = none) ∧
    (∀ es, svc = Except.ok es →
      pyStrip (joinWith (chars (" ")) (es.map TranscriptEntry.text)) = [] →
      fetch_youtube_transcript svc = none) := by
  refine ⟨?_, ?_, ?_⟩
  · rintro ⟨e, rfl⟩; rfl
  · rintro rfl; rfl
  · rintro es rfl hstrip
    show (if (pyStrip (joinWith (chars (" ")) (es.map TranscriptEntry.text))).isEmpty
        then (none : Option (List Char))
        else some (joinWith (chars (" ")) (es.map TranscriptEntry.text))) = none
    rw [hstrip]
    rfl

/-- C5 witness: the theorem applied to a raised service error, to the
empty entry list, and to a whitespace-only entry. -/
theorem c5_witness :
    fetch_youtube_transcript (Except.error () : Except Unit (List TranscriptEntry)) = none ∧
    fetch_youtube_transcript (Except.ok [] : Except Unit (List TranscriptEntry)) = none ∧
    fetch_youtube_transcript
      (Except.ok [TranscriptEntry.mk (chars ("  "))] : Except Unit (List TranscriptEntry)) = none :=
  ⟨(c5_fetch_failure_collapse Unit (Except.error ())).1 ⟨(), rfl⟩,
   (c5_fetch_failure_collapse Unit (Except.ok [])).2.1 rfl,
   (c5_fetch_failure_collapse Unit (Except.ok [TranscriptEntry.mk (chars ("  "))])).2.2
     [TranscriptEntry.mk (chars ("  "))] rfl (by decide)⟩

/-- C6: with `GEMINI_API_KEY` unset the summarizer raises the
`EnvironmentError` at once.  The statement quantifies over the whole
environment with the key fixed to `none`, so the result is independent of
the completion service: no client is built and no network call is made. -/
theorem c6_missing_credential (ε υ : Type) (env : AppEnv ε υ) (t : List Char)
    (h : env.geminiApiKey = none) :
    summarize_transcript_with_gemini env t =
      Except.error (PyErr.environmentError missingKeyMsg) := by
  unfold summarize_transcript_with_gemini
  rw [h]

/-- C6 witness: the theorem applied to a concrete keyless environment. -/
theorem c6_witness :
    summarize_transcript_with_gemini envNoKey (chars ("Hello world")) =
      Except.error (PyErr.environmentError missingKeyMsg) :=
  c6_missing_credential Unit Unit envNoKey (chars ("Hello world")) rfl

/-- C7: the fetcher joins the entries' text fields with single spaces, in
order: on entries with texts `x :: xs` it returns `x` followed by a space
before each remaining text, whenever that joined text does not strip to
empty. -/
theorem c7_join_space (ε : Type) (x : List Char) (xs : List (List Char))
    (h : pyStrip (x ++ xs.foldr (fun y acc => chars (" ") ++ y ++ acc) []) ≠ []) :
    fetch_youtube_transcript
      (Except.ok ((x :: xs).map TranscriptEntry.mk) : Except ε (List TranscriptEntry)) =
      some (x ++ xs.foldr (fun y acc => chars (" ") ++ y ++ acc) []) := by
  have hmap : ((x :: xs).map TranscriptEntry.mk).map TranscriptEntry.text = x :: xs := by
    rw [List.map_map, show TranscriptEntry.text ∘ TranscriptEntry.mk = id from rfl, List.map_id]
  have hjoin : joinWith (chars (" ")) (x :: xs)
      = x ++ xs.foldr (fun y acc => chars (" ") ++ y ++ acc) [] :=
    joinWith_eq_foldr (chars (" ")) x xs
  show (if (pyStrip (joinWith (chars (" "))
        (((x :: xs).map TranscriptEntry.mk).map TranscriptEntry.text))).isEmpty
      then (none : Option (List Char))
      else some (joinWith (chars (" "))
        (((x :: xs).map TranscriptEntry.mk).map TranscriptEntry.text))) = _
  rw [hmap, hjoin, isEmpty_false_of_ne_nil h]
  rfl

/-- C7 witness: entries with texts `a` and `b` yield exactly `a b`. -/
theorem c7_witness :
    fetch_youtube_transcript
      (Except.ok ((chars ("a") :: [chars ("b")]).map TranscriptEntry.mk)
        : Except Unit (List TranscriptEntry)) = some (chars ("a b")) :=
  c7_join_space Unit (chars ("a")) [chars ("b")] (by decide)

/-- C8: once the URL parses and a transcript is obtained, any exception
of the summarizer (missing credential, upstream completion error, index
error) is not caught by the handler: `get_summary` surfaces exactly that
exception instead of a structured payload. -/
theorem c8_summarizer_error_propagates (ε υ : Type) (env : AppEnv ε υ)
    (url vid t : List Char) (e : PyErr υ)
    (hex : extract_youtube_id url = Except.ok vid)
    (hf : fetch_youtube_transcript (env.transcriptSvc vid) = some t)
    (hs : summarize_transcript_with_gemini env t = Except.error e) :
    get_summary env url = Except.error e := by
  have hne : pyStrip t ≠ [] := fetch_some_strip (env.transcriptSvc vid) hf
  have hte : t.isEmpty = false := by
    cases t with
    | nil => exact absurd rfl hne
    | cons _ _ => rfl
  simp [get_summary, hex, hf, hte, hs]

/-- C8 witness: in the keyless environment the missing-credential error
escapes the handler for `https://youtu.be/abc123`. -/
theorem c8_witness :
    get_summary envNoKey (chars ("https://youtu.be/abc123")) =
      Except.error (PyErr.environmentError missingKeyMsg) :=
  c8_summarizer_error_propagates Unit Unit envNoKey (chars ("https://youtu.be/abc123"))
    (chars ("abc123")) (chars ("Hello world")) (PyErr.environmentError missingKeyMsg)
    (by decide) (by decide) (by decide)

/-- C9: the fetcher never returns an empty or whitespace-only string —
every `some` result has non-empty `strip()` — and therefore the Python
truthiness test the handler applies to it coincides with a `None` check. -/
theorem c9_fetch_invariant (ε : Type) (svc : Except ε (List TranscriptEntry)) :
    (∀ t, fetch_youtube_transcript svc = some t → pyStrip t ≠ []) ∧
    pyTruthyStr (fetch_youtube_transcript svc) = (fetch_youtube_transcript svc).isSome := by
  constructor
  · intro t h
    exact fetch_some_strip svc h
  · cases hm : fetch_youtube_transcript svc with
    | none => rfl
    | some t =>
      have hne := fetch_some_strip svc hm
      have hte : t.isEmpty = false := by
        cases t with
        | nil => exact absurd rfl hne
        | cons _ _ => rfl
      simp [pyTruthyStr, hte]

/-- C9 witness: the theorem applied to a service returning `Hello` and
`world`. -/
theorem c9_witness :
    pyStrip (chars ("Hello world")) ≠ [] ∧
    pyTruthyStr (fetch_youtube_transcript
      (Except.ok [TranscriptEntry.mk (chars ("Hello")), TranscriptEntry.mk (chars ("world"))]
        : Except Unit (List TranscriptEntry))) =
    (fetch_youtube_transcript
      (Except.ok [TranscriptEntry.mk (chars ("Hello")), TranscriptEntry.mk (chars ("world"))]
        : Except Unit (List TranscriptEntry))).isSome :=
  ⟨(c9_fetch_invariant Unit
      (Except.ok [TranscriptEntry.mk (chars ("Hello")), TranscriptEntry.mk (chars ("world"))])).1
      (chars ("Hello world")) (by decide),
   (c9_fetch_invariant Unit
      (Except.ok [TranscriptEntry.mk (chars ("Hello")), TranscriptEntry.mk (chars ("world"))])).2⟩

/-- C10: whenever the handler returns normally, its response is a
one-entry dict whose key is `summary`, or `error` with one of the two
fixed error strings. -/
theorem c10_response_shape (ε υ : Type) (env : AppEnv ε υ) (url : List Char)
    (d : List (List Char × List Char))
    (h : get_summary env url = Except.ok d) :
    d = [(chars ("error"), chars ("Invalid YouTube URL."))] ∨
    d = [(chars ("error"), chars ("Transcript not found or not available for this video."))] ∨
    ∃ v, d = [(chars ("summary"), v)] := by
  cases hex : extract_youtube_id url with
  | error m =>
    have hval : get_summary env url =
        Except.ok [(chars ("error"), chars ("Invalid YouTube URL."))] := by
      simp [get_summary, hex]
    rw [hval] at h
    injection h with h2
    exact Or.inl h2.symm
  | ok vid =>
    cases hf : fetch_youtube_transcript (env.transcriptSvc vid) with
    | none =>
      have hval : get_summary env url =
          Except.ok [(chars ("error"), chars ("Transcript not found or not available for this video."))] := by
        simp [get_summary, hex, hf]
      rw [hval] at h
      injection h with h2
      exact Or.inr (Or.inl h2.symm)
    | some t =>
      cases hte : t.isEmpty with
      | true =>
        have hval : get_summary env url =
            Except.ok [(chars ("error"), chars ("Transcript not found or not available for this video."))] := by
          simp [get_summary, hex, hf, hte]
        rw [hval] at h
        injection h with h2
        exact Or.inr (Or.inl h2.symm)
      | false =>
        cases hs : summarize_transcript_with_gemini env t with
        | error e =>
          have hval : get_summary env url = Except.error e := by
            simp [get_summary, hex, hf, hte, hs]
          rw [hval] at h
          exact absurd h (by simp)
        | ok sm =>
          have hval : get_summary env url = Except.ok [(chars ("summary"), sm)] := by
            simp [get_summary, hex, hf, hte, hs]
          rw [hval] at h
          injection h with h2
          exact Or.inr (Or.inr ⟨sm, h2.symm⟩)

/-- C10 witness: the theorem applied to the success-path environment. -/
theorem c10_witness :
    [(chars ("summary"), respTextC4)] = [(chars ("error"), chars ("Invalid YouTube URL."))] ∨
    [(chars ("summary"), respTextC4)] =
      [(chars ("error"), chars ("Transcript not found or not available for this video."))] ∨
    ∃ v, [(chars ("summary"), respTextC4)] = [(chars ("summary"), v)] :=
  c10_response_shape Unit Unit envC4 (chars ("https://youtu.be/abc123"))
    [(chars ("summary"), respTextC4)] (by decide)
